import Mathlib

/-!
Verification of the tenant-configuration TTL cache (package `secrets`).

The cache is a map from string keys to entries carrying an opaque value and an
absolute expiration instant, together with hit/miss/eviction metrics, a fixed
TTL and a capacity bound `maxSize`.

Shallow embedding choices:
* Time instants and durations are `Int` (nanoseconds, like Go's `time.Time` /
  `time.Duration` at the precision relevant here).  Each operation that calls
  `time.Now()` takes the current instant `now` as an explicit argument.
* The Go map `map[string]*CacheEntry` is embedded as an association list
  `List (String × CacheEntry α)`.  Go's map iteration order is unspecified, so
  a property claimed for every cache state must hold for every list; a
  concrete list fixes one (legal) iteration order.  Go's string `==` is plain
  equality, embedded as decidable propositional equality on `String`.
* The opaque `any` value type is a type parameter `α`.
* `int`/`int64` counters are `Int`; the counters only ever grow by one per
  operation, so 64-bit wraparound is unreachable in any run the claims range
  over and is not modelled.
* `HitRate`'s `float64` arithmetic is embedded exactly over `ℚ`.
* The `sync.RWMutex`, the `stopCh`/`once` shutdown machinery and the
  background goroutine are concurrency apparatus with no sequential content;
  the cleanup sweep itself (`cleanup`) is embedded as an ordinary operation.
-/

namespace Secrets

/-- `CacheEntry` represents a cached secret with expiration time
(fields `Value : any`, `ExpiresAt : time.Time`). -/
structure CacheEntry (α : Type) where
  value : α
  expiresAt : Int
  deriving Repr, DecidableEq

/-- `IsExpired` checks if the cache entry has expired:
`time.Now().After(e.ExpiresAt)`, i.e. strictly after. -/
def CacheEntry.IsExpired {α : Type} (e : CacheEntry α) (now : Int) : Bool :=
  decide (e.expiresAt < now)

/-- `CacheMetrics` tracks cache performance statistics (all fields `int64`). -/
structure CacheMetrics where
  Hits : Int
  Misses : Int
  Evictions : Int
  TotalReads : Int
  TotalSize : Int
  deriving Repr, DecidableEq

/-- `HitRate` calculates the cache hit rate as a percentage:
`0.0` when `TotalReads == 0`, else `float64(Hits)/float64(TotalReads)*100.0`,
embedded exactly over `ℚ`. -/
def CacheMetrics.HitRate (m : CacheMetrics) : ℚ :=
  if m.TotalReads = 0 then 0
  else (m.Hits : ℚ) / (m.TotalReads : ℚ) * 100

/-- The `Cache` struct: `entries map[string]*CacheEntry`, `ttl time.Duration`,
`maxSize int`, `metrics CacheMetrics`.  The mutex, stop channel and `once`
guard carry no sequential state and are omitted. -/
structure Cache (α : Type) where
  entries : List (String × CacheEntry α)
  ttl : Int
  maxSize : Int
  metrics : CacheMetrics
  deriving Repr, DecidableEq

/-- Go map read `entry, exists := m[key]` as an `Option`. -/
def lookupKey {α : Type} (key : String) :
    List (String × CacheEntry α) → Option (CacheEntry α)
  | [] => none
  | p :: l => if p.1 = key then some p.2 else lookupKey key l

/-- Key membership in the entries map, as a `Bool`. -/
def containsKey {α : Type} (key : String) (l : List (String × CacheEntry α)) : Bool :=
  l.any (fun p => decide (p.1 = key))

/-- Go map assignment `m[key] = e`: overwrite in place when the key is
present, otherwise add a new binding. -/
def insertEntry {α : Type} (key : String) (e : CacheEntry α)
    (l : List (String × CacheEntry α)) : List (String × CacheEntry α) :=
  if containsKey key l then l.map (fun p => if p.1 = key then (key, e) else p)
  else l ++ [(key, e)]

/-- Go map deletion `delete(m, key)`. -/
def eraseKey {α : Type} (key : String) (l : List (String × CacheEntry α)) :
    List (String × CacheEntry α) :=
  l.filter (fun p => decide (p.1 ≠ key))

/-- `NewCache` creates a new cache with specified TTL and maximum size
(the background cleanup goroutine it starts is modelled by explicit
`cleanup` steps). -/
def NewCache (α : Type) (ttl maxSize : Int) : Cache α :=
  { entries := []
    ttl := ttl
    maxSize := maxSize
    metrics := { Hits := 0, Misses := 0, Evictions := 0, TotalReads := 0, TotalSize := 0 } }

/-- `Get` retrieves a value from the cache, returning nil (`none`) if not
found or expired.  It increments `TotalReads` unconditionally and then exactly
one of `Hits`/`Misses`; it returns the updated cache alongside the result. -/
def Cache.Get {α : Type} (c : Cache α) (key : String) (now : Int) :
    Option α × Cache α :=
  let m := { c.metrics with TotalReads := c.metrics.TotalReads + 1 }
  match lookupKey key c.entries with
  | none => (none, { c with metrics := { m with Misses := m.Misses + 1 } })
  | some entry =>
    if entry.IsExpired now then
      (none, { c with metrics := { m with Misses := m.Misses + 1 } })
    else
      (some entry.value, { c with metrics := { m with Hits := m.Hits + 1 } })

/-- `evictExpiredEntries` removes all expired entries, incrementing
`Evictions` once per deletion. -/
def Cache.evictExpiredEntries {α : Type} (c : Cache α) (now : Int) : Cache α :=
  { c with
    entries := c.entries.filter (fun p => !(p.2.IsExpired now))
    metrics := { c.metrics with
      Evictions := c.metrics.Evictions +
        ((c.entries.filter (fun p => p.2.IsExpired now)).length : Int) } }

/-- One step of `evictOldestEntry`'s scan: the running `(oldestKey,
oldestTime)` pair is replaced when
`oldestKey == "" || entry.ExpiresAt.Before(oldestTime)`. -/
def oldStep {α : Type} (acc : String × Int) (p : String × CacheEntry α) :
    String × Int :=
  if acc.1 = "" ∨ p.2.expiresAt < acc.2 then (p.1, p.2.expiresAt) else acc

/-- `evictOldestEntry`'s scan over the entries: starts from the zero values
`oldestKey = ""`, `oldestTime = 0` (the initial `oldestTime` is never
compared: the `oldestKey == ""` disjunct short-circuits until both have been
assigned together). -/
def findOldest {α : Type} (l : List (String × CacheEntry α)) : String × Int :=
  l.foldl oldStep ("", 0)

/-- `evictOldestEntry` removes the oldest entry based on expiration time:
after the scan, the found key is deleted (and `Evictions` incremented) only
when `oldestKey != ""`. -/
def Cache.evictOldestEntry {α : Type} (c : Cache α) : Cache α :=
  if (findOldest c.entries).1 = "" then c
  else
    { c with
      entries := eraseKey (findOldest c.entries).1 c.entries
      metrics := { c.metrics with Evictions := c.metrics.Evictions + 1 } }

/-- The capacity-eviction prologue of `Set` (the two nested
`if len(c.entries) >= c.maxSize` checks of the Go code, factored out for
proofs): sweep expired entries when at capacity, then evict the oldest entry
if still at capacity. -/
def setEvictPhase {α : Type} (c : Cache α) (now : Int) : Cache α :=
  if c.maxSize ≤ (c.entries.length : Int) then
    if (c.evictExpiredEntries now).maxSize ≤
        ((c.evictExpiredEntries now).entries.length : Int) then
      (c.evictExpiredEntries now).evictOldestEntry
    else c.evictExpiredEntries now
  else c

/-- `Set` stores a value in the cache with TTL expiration: run the capacity
eviction prologue, insert/overwrite the entry with `ExpiresAt = now + ttl`,
and refresh the `TotalSize` metric to the new entry count. -/
def Cache.Set {α : Type} (c : Cache α) (key : String) (value : α) (now : Int) :
    Cache α :=
  { setEvictPhase c now with
    entries := insertEntry key ⟨value, now + (setEvictPhase c now).ttl⟩
      (setEvictPhase c now).entries
    metrics := { (setEvictPhase c now).metrics with
      TotalSize := ((insertEntry key ⟨value, now + (setEvictPhase c now).ttl⟩
        (setEvictPhase c now).entries).length : Int) } }

/-- `Delete` removes a specific key from the cache and refreshes `TotalSize`. -/
def Cache.Delete {α : Type} (c : Cache α) (key : String) : Cache α :=
  { c with
    entries := eraseKey key c.entries
    metrics := { c.metrics with TotalSize := ((eraseKey key c.entries).length : Int) } }

/-- `Clear` removes all entries from the cache and zeroes `TotalSize`. -/
def Cache.Clear {α : Type} (c : Cache α) : Cache α :=
  { c with
    entries := []
    metrics := { c.metrics with TotalSize := 0 } }

/-- `Size` returns the current number of entries in the cache. -/
def Cache.Size {α : Type} (c : Cache α) : Int :=
  (c.entries.length : Int)

/-- `Metrics` returns a copy of the current cache metrics. -/
def Cache.Metrics {α : Type} (c : Cache α) : CacheMetrics :=
  c.metrics

/-- `cleanup`, the body of one background-sweep tick: remove expired entries
and refresh `TotalSize`. -/
def Cache.cleanup {α : Type} (c : Cache α) (now : Int) : Cache α :=
  { c.evictExpiredEntries now with
    metrics := { (c.evictExpiredEntries now).metrics with
      TotalSize := (((c.evictExpiredEntries now).entries).length : Int) } }

/-- The tick period of `cleanupLoop`: `c.ttl / 2` with Go's `int64` division,
which truncates toward zero (`Int.tdiv`). -/
def Cache.cleanupTickPeriod {α : Type} (c : Cache α) : Int :=
  Int.tdiv c.ttl 2

/-- `time.NewTicker(d)` panics exactly when `d <= 0` ("non-positive interval
for NewTicker", Go standard library contract). -/
def newTickerPanics (d : Int) : Bool :=
  decide (d ≤ 0)

/-- One externally invokable operation on the cache (the background sweep
tick appears as `cleanup`). -/
inductive Op (α : Type) where
  | get (key : String) (now : Int)
  | set (key : String) (value : α) (now : Int)
  | del (key : String)
  | clear
  | cleanup (now : Int)

/-- Apply one operation to a cache state. -/
def applyOp {α : Type} (c : Cache α) : Op α → Cache α
  | .get key now => (c.Get key now).2
  | .set key value now => c.Set key value now
  | .del key => c.Delete key
  | .clear => c.Clear
  | .cleanup now => c.cleanup now

/-- Apply a sequence of operations from left to right. -/
def applyOps {α : Type} (c : Cache α) (ops : List (Op α)) : Cache α :=
  ops.foldl applyOp c

/-- The number of `Get` calls in a sequence of operations. -/
def countGets {α : Type} (ops : List (Op α)) : Nat :=
  (ops.filter (fun o => match o with | .get _ _ => true | _ => false)).length

/-! ### Association-list lemmas -/

section ListLemmas

variable {α : Type}

lemma containsKey_cons (key : String) (p : String × CacheEntry α)
    (l : List (String × CacheEntry α)) :
    containsKey key (p :: l) = (decide (p.1 = key) || containsKey key l) := by
  simp [containsKey]

lemma lookupKey_append_single (key : String) (e : CacheEntry α)
    (l : List (String × CacheEntry α)) (h : containsKey key l = false) :
    lookupKey key (l ++ [(key, e)]) = some e := by
  induction l with
  | nil => simp [lookupKey]
  | cons p l ih =>
    rw [containsKey_cons, Bool.or_eq_false_iff, decide_eq_false_iff_not] at h
    simp only [List.cons_append, lookupKey, if_neg h.1]
    exact ih h.2

lemma lookupKey_map_replace (key : String) (e : CacheEntry α)
    (l : List (String × CacheEntry α)) (h : containsKey key l = true) :
    lookupKey key (l.map (fun p => if p.1 = key then (key, e) else p)) = some e := by
  induction l with
  | nil => simp [containsKey] at h
  | cons p l ih =>
    by_cases hp : p.1 = key
    · simp [lookupKey, hp]
    · rw [containsKey_cons, Bool.or_eq_true_iff] at h
      rcases h with h | h
      · exact absurd (of_decide_eq_true h) hp
      · simp only [List.map_cons, if_neg hp, lookupKey]
        exact ih h

lemma lookupKey_insertEntry_self (key : String) (e : CacheEntry α)
    (l : List (String × CacheEntry α)) :
    lookupKey key (insertEntry key e l) = some e := by
  unfold insertEntry
  by_cases h : containsKey key l = true
  · rw [if_pos h]
    exact lookupKey_map_replace key e l h
  · rw [Bool.not_eq_true] at h
    rw [if_neg (by simp [h])]
    exact lookupKey_append_single key e l h

lemma containsKey_insertEntry_self (key : String) (e : CacheEntry α)
    (l : List (String × CacheEntry α)) :
    containsKey key (insertEntry key e l) = true := by
  unfold insertEntry
  by_cases h : containsKey key l = true
  · rw [if_pos h]
    induction l with
    | nil => simp [containsKey] at h
    | cons p l ih =>
      by_cases hp : p.1 = key
      · simp [containsKey_cons, hp]
      · rw [containsKey_cons, Bool.or_eq_true_iff] at h
        rcases h with h | h
        · exact absurd (of_decide_eq_true h) hp
        · simp only [List.map_cons, if_neg hp, containsKey_cons, ih h, Bool.or_true]
  · rw [Bool.not_eq_true] at h
    rw [if_neg (by simp [h])]
    simp [containsKey]

lemma length_insertEntry (key : String) (e : CacheEntry α)
    (l : List (String × CacheEntry α)) :
    (insertEntry key e l).length =
      if containsKey key l then l.length else l.length + 1 := by
  unfold insertEntry
  by_cases h : containsKey key l = true <;> simp [h]

lemma length_lt_of_sublist_of_containsKey {l1 l2 : List (String × CacheEntry α)}
    (hs : List.Sublist l1 l2) (key : String)
    (h2 : containsKey key l2 = true) (h1 : containsKey key l1 = false) :
    l1.length < l2.length := by
  rcases lt_or_eq_of_le hs.length_le with h | h
  · exact h
  · exact absurd (hs.eq_of_length h ▸ h2) (by simp [h1])

end ListLemmas

/-! ### Field-preservation and shape lemmas for the eviction phase -/

section Preservation

variable {α : Type}

lemma evictExpiredEntries_fields (c : Cache α) (now : Int) :
    (c.evictExpiredEntries now).ttl = c.ttl ∧
    (c.evictExpiredEntries now).maxSize = c.maxSize ∧
    (c.evictExpiredEntries now).metrics.Hits = c.metrics.Hits ∧
    (c.evictExpiredEntries now).metrics.Misses = c.metrics.Misses ∧
    (c.evictExpiredEntries now).metrics.TotalReads = c.metrics.TotalReads ∧
    (c.evictExpiredEntries now).metrics.TotalSize = c.metrics.TotalSize := by
  simp [Cache.evictExpiredEntries]

lemma evictOldestEntry_fields (c : Cache α) :
    c.evictOldestEntry.ttl = c.ttl ∧
    c.evictOldestEntry.maxSize = c.maxSize ∧
    c.evictOldestEntry.metrics.Hits = c.metrics.Hits ∧
    c.evictOldestEntry.metrics.Misses = c.metrics.Misses ∧
    c.evictOldestEntry.metrics.TotalReads = c.metrics.TotalReads ∧
    c.evictOldestEntry.metrics.TotalSize = c.metrics.TotalSize := by
  unfold Cache.evictOldestEntry
  split <;> simp

lemma setEvictPhase_fields (c : Cache α) (now : Int) :
    (setEvictPhase c now).ttl = c.ttl ∧
    (setEvictPhase c now).maxSize = c.maxSize ∧
    (setEvictPhase c now).metrics.Hits = c.metrics.Hits ∧
    (setEvictPhase c now).metrics.Misses = c.metrics.Misses ∧
    (setEvictPhase c now).metrics.TotalReads = c.metrics.TotalReads := by
  unfold setEvictPhase
  split
  · split
    · have h1 := evictExpiredEntries_fields c now
      have h2 := evictOldestEntry_fields (c.evictExpiredEntries now)
      exact ⟨h2.1.trans h1.1, h2.2.1.trans h1.2.1,
        h2.2.2.1.trans h1.2.2.1, h2.2.2.2.1.trans h1.2.2.2.1,
        h2.2.2.2.2.1.trans h1.2.2.2.2.1⟩
    · have h1 := evictExpiredEntries_fields c now
      exact ⟨h1.1, h1.2.1, h1.2.2.1, h1.2.2.2.1, h1.2.2.2.2.1⟩
  · exact ⟨rfl, rfl, rfl, rfl, rfl⟩

lemma evictExpiredEntries_entries_sublist (c : Cache α) (now : Int) :
    List.Sublist (c.evictExpiredEntries now).entries c.entries := by
  simp only [Cache.evictExpiredEntries]
  exact List.filter_sublist _

lemma evictOldestEntry_entries_sublist (c : Cache α) :
    List.Sublist c.evictOldestEntry.entries c.entries := by
  unfold Cache.evictOldestEntry
  split
  · exact List.Sublist.refl _
  · exact List.filter_sublist _

lemma setEvictPhase_entries_sublist (c : Cache α) (now : Int) :
    List.Sublist (setEvictPhase c now).entries c.entries := by
  unfold setEvictPhase
  split
  · split
    · exact (evictOldestEntry_entries_sublist _).trans
        (evictExpiredEntries_entries_sublist c now)
    · exact evictExpiredEntries_entries_sublist c now
  · exact List.Sublist.refl _

lemma Set_entries (c : Cache α) (key : String) (v : α) (now : Int) :
    (c.Set key v now).entries =
      insertEntry key ⟨v, now + c.ttl⟩ (setEvictPhase c now).entries := by
  simp only [Cache.Set, (setEvictPhase_fields c now).1]

end Preservation

/-! ### Metrics bookkeeping lemmas -/

section MetricsLemmas

variable {α : Type}

lemma Get_metrics_step (c : Cache α) (k : String) (now : Int) :
    (c.Get k now).2.metrics.Hits + (c.Get k now).2.metrics.Misses =
      c.metrics.Hits + c.metrics.Misses + 1 ∧
    (c.Get k now).2.metrics.TotalReads = c.metrics.TotalReads + 1 := by
  cases hl : lookupKey k c.entries with
  | none =>
    constructor
    · simp only [Cache.Get, hl]
      omega
    · simp [Cache.Get, hl]
  | some entry =>
    by_cases he : entry.IsExpired now = true
    · constructor
      · simp only [Cache.Get, hl, he, if_true]
        omega
      · simp [Cache.Get, hl, he]
    · constructor
      · simp only [Cache.Get, hl, he, Bool.false_eq_true, if_false]
        omega
      · simp [Cache.Get, hl, he]

lemma Set_reads_metrics (c : Cache α) (k : String) (v : α) (now : Int) :
    (c.Set k v now).metrics.Hits = c.metrics.Hits ∧
    (c.Set k v now).metrics.Misses = c.metrics.Misses ∧
    (c.Set k v now).metrics.TotalReads = c.metrics.TotalReads := by
  have h := setEvictPhase_fields c now
  simp only [Cache.Set]
  exact ⟨h.2.2.1, h.2.2.2.1, h.2.2.2.2⟩

lemma Set_evictions (c : Cache α) (k : String) (v : α) (now : Int) :
    (c.Set k v now).metrics.Evictions = (setEvictPhase c now).metrics.Evictions := by
  simp [Cache.Set]

lemma Delete_reads_metrics (c : Cache α) (k : String) :
    (c.Delete k).metrics.Hits = c.metrics.Hits ∧
    (c.Delete k).metrics.Misses = c.metrics.Misses ∧
    (c.Delete k).metrics.TotalReads = c.metrics.TotalReads := by
  simp [Cache.Delete]

lemma Clear_reads_metrics (c : Cache α) :
    c.Clear.metrics.Hits = c.metrics.Hits ∧
    c.Clear.metrics.Misses = c.metrics.Misses ∧
    c.Clear.metrics.TotalReads = c.metrics.TotalReads := by
  simp [Cache.Clear]

lemma cleanup_reads_metrics (c : Cache α) (now : Int) :
    (c.cleanup now).metrics.Hits = c.metrics.Hits ∧
    (c.cleanup now).metrics.Misses = c.metrics.Misses ∧
    (c.cleanup now).metrics.TotalReads = c.metrics.TotalReads := by
  have h := evictExpiredEntries_fields c now
  simp only [Cache.cleanup]
  exact ⟨h.2.2.1, h.2.2.2.1, h.2.2.2.2.1⟩

lemma countGets_cons_get (k : String) (now : Int) (ops : List (Op α)) :
    countGets (Op.get k now :: ops) = countGets ops + 1 := by
  simp [countGets, List.filter_cons]

lemma countGets_cons_other (o : Op α) (ops : List (Op α))
    (h : (match o with | Op.get _ _ => true | _ => false) = false) :
    countGets (o :: ops) = countGets ops := by
  simp [countGets, List.filter_cons, h]

lemma applyOps_cons (c : Cache α) (o : Op α) (ops : List (Op α)) :
    applyOps c (o :: ops) = applyOps (applyOp c o) ops :=
  rfl

lemma applyOps_metrics (ops : List (Op α)) (c : Cache α) :
    (applyOps c ops).metrics.TotalReads =
      c.metrics.TotalReads + (countGets ops : Int) ∧
    (applyOps c ops).metrics.Hits + (applyOps c ops).metrics.Misses =
      c.metrics.Hits + c.metrics.Misses + (countGets ops : Int) := by
  induction ops generalizing c with
  | nil => simp [applyOps, countGets]
  | cons o ops ih =>
    rw [applyOps_cons]
    cases o with
    | get k now =>
      have hstep := Get_metrics_step c k now
      have ihh := ih ((c.Get k now).2)
      rw [countGets_cons_get k now ops]
      simp only [applyOp]
      constructor
      · rw [ihh.1, hstep.2]
        push_cast
        ring
      · rw [ihh.2, hstep.1]
        push_cast
        ring
    | set k v now =>
      have hp := Set_reads_metrics c k v now
      have ihh := ih (c.Set k v now)
      rw [countGets_cons_other (Op.set k v now) ops rfl]
      simp only [applyOp]
      exact ⟨by rw [ihh.1, hp.2.2], by rw [ihh.2, hp.1, hp.2.1]⟩
    | del k =>
      have hp := Delete_reads_metrics c k
      have ihh := ih (c.Delete k)
      rw [countGets_cons_other (Op.del k) ops rfl]
      simp only [applyOp]
      exact ⟨by rw [ihh.1, hp.2.2], by rw [ihh.2, hp.1, hp.2.1]⟩
    | clear =>
      have hp := Clear_reads_metrics c
      have ihh := ih c.Clear
      rw [countGets_cons_other Op.clear ops rfl]
      simp only [applyOp]
      exact ⟨by rw [ihh.1, hp.2.2], by rw [ihh.2, hp.1, hp.2.1]⟩
    | cleanup now =>
      have hp := cleanup_reads_metrics c now
      have ihh := ih (c.cleanup now)
      rw [countGets_cons_other (Op.cleanup now) ops rfl]
      simp only [applyOp]
      exact ⟨by rw [ihh.1, hp.2.2], by rw [ihh.2, hp.1, hp.2.1]⟩

end MetricsLemmas

/-! ### The `evictOldestEntry` scan on caches without the empty-string key -/

section OldestScan

variable {α : Type}

lemma foldl_oldStep_spec (l : List (String × CacheEntry α)) (acc : String × Int)
    (ha : acc.1 ≠ "") (hl : ∀ p ∈ l, p.1 ≠ "") :
    (l.foldl oldStep acc = acc ∨
      ∃ p ∈ l, l.foldl oldStep acc = (p.1, p.2.expiresAt)) ∧
    (l.foldl oldStep acc).2 ≤ acc.2 ∧
    (∀ q ∈ l, (l.foldl oldStep acc).2 ≤ q.2.expiresAt) ∧
    (l.foldl oldStep acc).1 ≠ "" := by
  induction l generalizing acc with
  | nil => simp [ha]
  | cons p l ih =>
    have hp : p.1 ≠ "" := hl p (List.mem_cons_self p l)
    have hltail : ∀ q ∈ l, q.1 ≠ "" := fun q hq => hl q (List.mem_cons_of_mem p hq)
    rw [List.foldl_cons]
    by_cases hcmp : p.2.expiresAt < acc.2
    · have hstep : oldStep acc p = (p.1, p.2.expiresAt) := by
        simp [oldStep, hcmp]
      rw [hstep]
      obtain ⟨hmem, hle, hall, hnz⟩ := ih (p.1, p.2.expiresAt) hp hltail
      refine ⟨?_, le_trans hle (le_of_lt hcmp), ?_, hnz⟩
      · rcases hmem with h | ⟨q, hq, h⟩
        · exact Or.inr ⟨p, List.mem_cons_self p l, h⟩
        · exact Or.inr ⟨q, List.mem_cons_of_mem p hq, h⟩
      · intro q hq
        rcases List.mem_cons.mp hq with rfl | hq2
        · exact hle
        · exact hall q hq2
    · have hstep : oldStep acc p = acc := by
        simp [oldStep, ha, hcmp]
      rw [hstep]
      obtain ⟨hmem, hle, hall, hnz⟩ := ih acc ha hltail
      refine ⟨?_, hle, ?_, hnz⟩
      · rcases hmem with h | ⟨q, hq, h⟩
        · exact Or.inl h
        · exact Or.inr ⟨q, List.mem_cons_of_mem p hq, h⟩
      · intro q hq
        rcases List.mem_cons.mp hq with rfl | hq2
        · exact le_trans hle (not_lt.mp hcmp)
        · exact hall q hq2

lemma findOldest_spec (p0 : String × CacheEntry α)
    (l : List (String × CacheEntry α)) (hl : ∀ q ∈ p0 :: l, q.1 ≠ "") :
    ∃ p ∈ p0 :: l, findOldest (p0 :: l) = (p.1, p.2.expiresAt) ∧
      ∀ q ∈ p0 :: l, p.2.expiresAt ≤ q.2.expiresAt := by
  have hp0 : p0.1 ≠ "" := hl p0 (List.mem_cons_self p0 l)
  have hstep : oldStep ("", 0) p0 = (p0.1, p0.2.expiresAt) := by simp [oldStep]
  unfold findOldest
  rw [List.foldl_cons, hstep]
  obtain ⟨hmem, hle, hall, hnz⟩ := foldl_oldStep_spec l (p0.1, p0.2.expiresAt) hp0
    (fun q hq => hl q (List.mem_cons_of_mem p0 hq))
  rcases hmem with h | ⟨q, hq, h⟩
  · refine ⟨p0, List.mem_cons_self p0 l, h, ?_⟩
    intro q hq
    rcases List.mem_cons.mp hq with rfl | hq2
    · exact le_refl _
    · simpa [h] using hall q hq2
  · refine ⟨q, List.mem_cons_of_mem p0 hq, h, ?_⟩
    intro r hr
    rcases List.mem_cons.mp hr with rfl | hr2
    · simpa [h] using hle
    · simpa [h] using hall r hr2

lemma findOldest_spec_of_ne_nil (l : List (String × CacheEntry α))
    (hnil : l ≠ []) (hl : ∀ q ∈ l, q.1 ≠ "") :
    ∃ p ∈ l, findOldest l = (p.1, p.2.expiresAt) ∧
      ∀ q ∈ l, p.2.expiresAt ≤ q.2.expiresAt := by
  cases l with
  | nil => exact absurd rfl hnil
  | cons p0 l => exact findOldest_spec p0 l hl

lemma evictOldestEntry_spec (c : Cache α) (hnil : c.entries ≠ [])
    (hne : ∀ p ∈ c.entries, p.1 ≠ "") :
    ∃ p ∈ c.entries,
      (∀ q ∈ c.entries, p.2.expiresAt ≤ q.2.expiresAt) ∧
      c.evictOldestEntry =
        { c with
          entries := eraseKey p.1 c.entries
          metrics := { c.metrics with Evictions := c.metrics.Evictions + 1 } } := by
  obtain ⟨p, hp, hfo, hmin⟩ := findOldest_spec_of_ne_nil c.entries hnil hne
  refine ⟨p, hp, hmin, ?_⟩
  unfold Cache.evictOldestEntry
  rw [hfo]
  rw [if_neg (hne p hp)]

lemma evictExpiredEntries_of_none_expired (c : Cache α) (now : Int)
    (h : ∀ p ∈ c.entries, p.2.IsExpired now = false) :
    (c.evictExpiredEntries now).entries = c.entries ∧
    (c.evictExpiredEntries now).metrics.Evictions = c.metrics.Evictions := by
  have hfilter : c.entries.filter (fun p => !(p.2.IsExpired now)) = c.entries :=
    List.filter_eq_self.mpr (fun p hp => by simp [h p hp])
  have hnone : c.entries.filter (fun p => p.2.IsExpired now) = [] := by
    rw [List.filter_eq_nil_iff]
    intro p hp
    simp [h p hp]
  constructor
  · simp [Cache.evictExpiredEntries, hfilter]
  · simp [Cache.evictExpiredEntries, hnone]

end OldestScan

/-! ### Claim theorems -/

/-- C1 (capacity bound): the claim fails on the code.  With `maxSize = 1`,
setting the empty-string key and then a second key leaves two live entries:
`evictOldestEntry` uses `oldestKey == ""` as its "nothing found yet"
sentinel, so when the only eviction candidate is the entry keyed by the empty
string it evicts nothing and the insertion pushes `Size()` past `maxSize`. -/
theorem C1_capacity_exceeded_at_empty_key :
    (((NewCache Nat 100 1).Set "" 0 0).Set "a" 1 0).Size = 2 ∧
    (((NewCache Nat 100 1).Set "" 0 0).Set "a" 1 0).maxSize = 1 ∧
    (((NewCache Nat 100 1).Set "" 0 0).Set "a" 1 0).metrics.Evictions = 0 := by
  decide

/-- C2 (TTL correctness), counterexample to the boundary clause: expiry uses
`time.Now().After(ExpiresAt)`, which is strict, so a read at exactly
`t + ttl` (here `ttl = 5`, write at `t = 0`, read at `5`) still returns the
value, where the claim demands absent. -/
theorem C2_boundary_read_is_a_hit :
    (((NewCache Nat 5 10).Set "x" 42 0).Get "x" 5).1 = some 42 := by
  decide

/-- C2 (TTL correctness), amended: after `Set(k, v)` at time `t`, a `Get(k)`
at time `tr` returns `v` whenever `tr ≤ t + ttl` and returns absent whenever
`tr > t + ttl` (strictly after the expiry instant), assuming no intervening
operation on the cache. -/
theorem C2_ttl_correctness {α : Type} (c : Cache α) (k : String) (v : α)
    (t tr : Int) :
    (tr ≤ t + c.ttl → ((c.Set k v t).Get k tr).1 = some v) ∧
    (t + c.ttl < tr → ((c.Set k v t).Get k tr).1 = none) := by
  have hl : lookupKey k (c.Set k v t).entries = some ⟨v, t + c.ttl⟩ := by
    rw [Set_entries]
    exact lookupKey_insertEntry_self _ _ _
  constructor
  · intro h
    simp [Cache.Get, hl, CacheEntry.IsExpired, not_lt.mpr h]
  · intro h
    simp [Cache.Get, hl, CacheEntry.IsExpired, h]

/-- Witness for `C2_ttl_correctness` at concrete inputs: `ttl = 5`, write at
`0`, a read at `3` hits and a read at `6` misses. -/
theorem C2_ttl_correctness_witness :
    (((NewCache Nat 5 10).Set "x" 42 0).Get "x" 3).1 = some 42 ∧
    (((NewCache Nat 5 10).Set "x" 42 0).Get "x" 6).1 = none :=
  ⟨(C2_ttl_correctness (NewCache Nat 5 10) "x" 42 0 3).1 (by decide),
   (C2_ttl_correctness (NewCache Nat 5 10) "x" 42 0 6).2 (by decide)⟩

/-- The concrete pre-state for the C3 counterexample: three live entries,
the one keyed by the empty string having the minimum `expiresAt`. -/
def stateC3 : Cache Nat :=
  { entries := [("a", ⟨1, 10⟩), ("", ⟨2, 5⟩), ("b", ⟨3, 20⟩)]
    ttl := 100
    maxSize := 3
    metrics := { Hits := 0, Misses := 0, Evictions := 0, TotalReads := 0, TotalSize := 3 } }

/-- C3 (eviction order): the claim fails on the code.  In `stateC3` the cache
is at capacity (`3` entries, `maxSize = 3`), nothing is expired at `now = 0`,
and the minimum `expiresAt` belongs to the empty-string key (`5`, against
`10` and `20`).  Once `evictOldestEntry`'s scan passes the empty-string
entry, `oldestKey` is `""` again and the next entry is taken unconditionally,
so the entry evicted is `"b"` — the one with the *maximum* `expiresAt`. -/
theorem C3_eviction_not_minimal_at_empty_key :
    stateC3.entries.all (fun p => !(p.2.IsExpired 0)) = true ∧
    stateC3.Size = 3 ∧ stateC3.maxSize = 3 ∧
    (stateC3.Set "c" 4 0).entries =
      [("a", ⟨1, 10⟩), ("", ⟨2, 5⟩), ("c", ⟨4, 100⟩)] := by
  decide

/-- C5 (Clear resets size but not history): after `Clear()` the size and the
`TotalSize` metric are `0`, a `Get` on any key misses (returns absent and
increments `Misses`), and the cumulative `Hits`/`Misses`/`Evictions`
counters keep exactly their pre-`Clear` values. -/
theorem C5_clear_resets_size_not_history {α : Type} (c : Cache α) (k : String)
    (now : Int) :
    c.Clear.Size = 0 ∧
    (c.Clear.Get k now).1 = none ∧
    (c.Clear.Get k now).2.metrics.Misses = c.metrics.Misses + 1 ∧
    c.Clear.metrics.TotalSize = 0 ∧
    c.Clear.metrics.Hits = c.metrics.Hits ∧
    c.Clear.metrics.Misses = c.metrics.Misses ∧
    c.Clear.metrics.Evictions = c.metrics.Evictions := by
  simp [Cache.Clear, Cache.Size, Cache.Get, lookupKey]

/-- C7 (Get performs no structural change): `Get` leaves `entries`, `ttl`,
`maxSize`, `Evictions` and `TotalSize` exactly as they were — in particular
an expired entry is not deleted — and its only mutation is incrementing
`TotalReads` together with exactly one of `Hits` or `Misses`. -/
theorem C7_get_no_structural_change {α : Type} (c : Cache α) (k : String)
    (now : Int) :
    (c.Get k now).2.entries = c.entries ∧
    (c.Get k now).2.ttl = c.ttl ∧
    (c.Get k now).2.maxSize = c.maxSize ∧
    (c.Get k now).2.metrics.TotalReads = c.metrics.TotalReads + 1 ∧
    (c.Get k now).2.metrics.Evictions = c.metrics.Evictions ∧
    (c.Get k now).2.metrics.TotalSize = c.metrics.TotalSize ∧
    (((c.Get k now).2.metrics.Hits = c.metrics.Hits + 1 ∧
      (c.Get k now).2.metrics.Misses = c.metrics.Misses) ∨
     ((c.Get k now).2.metrics.Hits = c.metrics.Hits ∧
      (c.Get k now).2.metrics.Misses = c.metrics.Misses + 1)) := by
  cases hl : lookupKey k c.entries with
  | none => simp [Cache.Get, hl]
  | some entry =>
    by_cases he : entry.IsExpired now = true <;> simp [Cache.Get, hl, he]

/-- C10 (cleanup-period totality): the cleanup loop's tick period is
`ttl / 2` in Go's truncating `int64` division; `time.NewTicker` panics
exactly when that period is `≤ 0`, and the period is `≤ 0` precisely for
`ttl ≤ 0` or `ttl = 1` (one nanosecond). -/
theorem C10_cleanup_tick_period (ttl maxSize : Int) :
    (0 < (NewCache Nat ttl maxSize).cleanupTickPeriod →
      newTickerPanics ((NewCache Nat ttl maxSize).cleanupTickPeriod) = false) ∧
    ((NewCache Nat ttl maxSize).cleanupTickPeriod ≤ 0 →
      newTickerPanics ((NewCache Nat ttl maxSize).cleanupTickPeriod) = true) ∧
    ((NewCache Nat ttl maxSize).cleanupTickPeriod ≤ 0 ↔ ttl ≤ 0 ∨ ttl = 1) := by
  refine ⟨?_, ?_, ?_⟩
  · intro h
    simp only [newTickerPanics, decide_eq_false_iff_not, not_le]
    exact h
  · intro h
    simp only [newTickerPanics, decide_eq_true_eq]
    exact h
  · show Int.tdiv ttl 2 ≤ 0 ↔ ttl ≤ 0 ∨ ttl = 1
    rcases ttl with n | n
    · rw [show (Int.ofNat n).tdiv 2 = Int.ofNat (n / 2) from rfl]
      simp only [Int.ofNat_eq_natCast]
      omega
    · rw [show Int.tdiv (Int.negSucc n) 2 = -(((n + 1) / 2 : Nat) : Int) from rfl]
      rw [Int.negSucc_eq]
      omega

/-- Witness for `C10_cleanup_tick_period`: with `ttl = 200` the ticker does
not panic; with `ttl = 1` it does. -/
theorem C10_cleanup_tick_period_witness :
    newTickerPanics ((NewCache Nat 200 10).cleanupTickPeriod) = false ∧
    newTickerPanics ((NewCache Nat 1 10).cleanupTickPeriod) = true :=
  ⟨(C10_cleanup_tick_period 200 10).1 (by decide),
   (C10_cleanup_tick_period 1 10).2.1 (by decide)⟩

/-- C4 (metrics consistency): starting from a fresh cache, after any sequence
of operations containing `n` `Get` calls, `Hits + Misses = TotalReads = n`,
and `HitRate()` is `0` when there were no reads, else `Hits / n * 100`. -/
theorem C4_metrics_consistency {α : Type} (ttl maxSize : Int) (ops : List (Op α)) :
    (applyOps (NewCache α ttl maxSize) ops).metrics.Hits +
        (applyOps (NewCache α ttl maxSize) ops).metrics.Misses =
      (applyOps (NewCache α ttl maxSize) ops).metrics.TotalReads ∧
    (applyOps (NewCache α ttl maxSize) ops).metrics.TotalReads =
      (countGets ops : Int) ∧
    (applyOps (NewCache α ttl maxSize) ops).metrics.HitRate =
      (if countGets ops = 0 then 0
       else ((applyOps (NewCache α ttl maxSize) ops).metrics.Hits : ℚ) /
         (countGets ops : ℚ) * 100) := by
  have h := applyOps_metrics ops (NewCache α ttl maxSize)
  have hz : (NewCache α ttl maxSize).metrics.TotalReads = 0 := rfl
  have hz2 : (NewCache α ttl maxSize).metrics.Hits = 0 := rfl
  have hz3 : (NewCache α ttl maxSize).metrics.Misses = 0 := rfl
  have hreads : (applyOps (NewCache α ttl maxSize) ops).metrics.TotalReads =
      (countGets ops : Int) := by
    rw [h.1, hz, zero_add]
  have hsum : (applyOps (NewCache α ttl maxSize) ops).metrics.Hits +
      (applyOps (NewCache α ttl maxSize) ops).metrics.Misses =
      (applyOps (NewCache α ttl maxSize) ops).metrics.TotalReads := by
    rw [h.2, hz2, hz3, hreads, zero_add, zero_add]
  refine ⟨hsum, hreads, ?_⟩
  unfold CacheMetrics.HitRate
  rw [hreads]
  by_cases hn : countGets ops = 0
  · simp [hn]
  · rw [if_neg (by exact_mod_cast hn), if_neg hn]
    push_cast
    ring

/-- C6 (idempotent overwrite): two consecutive `Set` calls on the same key at
time `t` leave the entry holding the second value — a `Get` within the TTL
window (`tr ≤ t + ttl`) returns `v2` — and the second `Set` does not grow
the entry count: the overwrite occupies the single entry the first `Set`
created (even if the second call's capacity check evicted something). -/
theorem C6_idempotent_overwrite {α : Type} (c : Cache α) (k : String)
    (v1 v2 : α) (t tr : Int) (hwin : tr ≤ t + c.ttl) :
    (((c.Set k v1 t).Set k v2 t).Get k tr).1 = some v2 ∧
    ((c.Set k v1 t).Set k v2 t).entries.length ≤ (c.Set k v1 t).entries.length := by
  have httl : (c.Set k v1 t).ttl = c.ttl := by
    simp only [Cache.Set]
    exact (setEvictPhase_fields c t).1
  have hl : lookupKey k ((c.Set k v1 t).Set k v2 t).entries =
      some ⟨v2, t + (c.Set k v1 t).ttl⟩ := by
    rw [Set_entries]
    exact lookupKey_insertEntry_self _ _ _
  rw [httl] at hl
  constructor
  · simp [Cache.Get, hl, CacheEntry.IsExpired, not_lt.mpr hwin]
  · have hmem : containsKey k (c.Set k v1 t).entries = true := by
      rw [Set_entries]
      exact containsKey_insertEntry_self _ _ _
    have hsub : List.Sublist (setEvictPhase (c.Set k v1 t) t).entries
        (c.Set k v1 t).entries := setEvictPhase_entries_sublist _ t
    rw [Set_entries, length_insertEntry]
    by_cases h : containsKey k (setEvictPhase (c.Set k v1 t) t).entries = true
    · rw [if_pos h]
      exact hsub.length_le
    · rw [Bool.not_eq_true] at h
      rw [if_neg (by simp [h])]
      have := length_lt_of_sublist_of_containsKey hsub k hmem h
      omega

/-- Witness for `C6_idempotent_overwrite`: `Set("k",1); Set("k",2)` on a
fresh cache, read back at time `50 < ttl = 100`. -/
theorem C6_idempotent_overwrite_witness :
    ((((NewCache Nat 100 10).Set "k" 1 0).Set "k" 2 0).Get "k" 50).1 = some 2 :=
  (C6_idempotent_overwrite (NewCache Nat 100 10) "k" 1 2 0 50 (by decide)).1

/-- The concrete pre-state for the C9 counterexample: a single live entry
keyed by the empty string, cache at capacity. -/
def stateC9 : Cache Nat :=
  { entries := [("", ⟨5, 10⟩)]
    ttl := 100
    maxSize := 1
    metrics := { Hits := 0, Misses := 0, Evictions := 0, TotalReads := 0, TotalSize := 1 } }

/-- C9 (overwrite at capacity still evicts): counterexample to the claim as
stated.  In `stateC9` the key `""` is present, the cache is at capacity and
nothing is expired, so the claim requires an eviction and an `Evictions`
increment on `Set("", v)` — but `evictOldestEntry`'s empty-string sentinel
finds no candidate, nothing is evicted, and `Evictions` stays `0`. -/
theorem C9_no_eviction_at_empty_key :
    containsKey "" stateC9.entries = true ∧
    stateC9.maxSize ≤ (stateC9.entries.length : Int) ∧
    stateC9.entries.all (fun p => !(p.2.IsExpired 0)) = true ∧
    (stateC9.Set "" 9 0).metrics.Evictions = 0 ∧
    (stateC9.Set "" 9 0).entries.length = 1 := by
  decide

/-- C9 (overwrite at capacity still evicts), amended to caches whose keys are
all nonempty: if `k` is already present, the cache is at capacity and no
entry is expired, then `Set(k, v)` still evicts the entry with the earliest
`expiresAt` (possibly a key other than `k`) and increments `Evictions` — the
capacity check does not consider that the insert is an overwrite. -/
theorem C9_overwrite_at_capacity_evicts {α : Type} (c : Cache α) (k : String)
    (v : α) (now : Int)
    (hk : containsKey k c.entries = true)
    (hcap : c.maxSize ≤ (c.entries.length : Int))
    (hexp : ∀ p ∈ c.entries, p.2.IsExpired now = false)
    (hne : ∀ p ∈ c.entries, p.1 ≠ "") :
    (c.Set k v now).metrics.Evictions = c.metrics.Evictions + 1 ∧
    ∃ p ∈ c.entries,
      (∀ q ∈ c.entries, p.2.expiresAt ≤ q.2.expiresAt) ∧
      (c.Set k v now).entries =
        insertEntry k ⟨v, now + c.ttl⟩ (eraseKey p.1 c.entries) := by
  have hc1 := evictExpiredEntries_of_none_expired c now hexp
  have hff := evictExpiredEntries_fields c now
  have hcond2 : (c.evictExpiredEntries now).maxSize ≤
      ((c.evictExpiredEntries now).entries.length : Int) := by
    rw [hff.2.1, hc1.1]
    exact hcap
  have hphase : setEvictPhase c now = (c.evictExpiredEntries now).evictOldestEntry := by
    unfold setEvictPhase
    rw [if_pos hcap, if_pos hcond2]
  have hnil : c.entries ≠ [] := by
    intro h0
    rw [h0] at hk
    simp [containsKey] at hk
  obtain ⟨p, hp, hmin, hevict⟩ := evictOldestEntry_spec (c.evictExpiredEntries now)
    (by rw [hc1.1]; exact hnil) (by rw [hc1.1]; exact hne)
  rw [hc1.1] at hp hmin
  constructor
  · rw [Set_evictions, hphase, hevict]
    simp only
    rw [hc1.2]
  · refine ⟨p, hp, hmin, ?_⟩
    rw [Set_entries, hphase, hevict]
    simp only
    rw [hc1.1]

/-- The concrete state for the C9 witness: two live entries with nonempty
keys, `"b"` expiring first, the cache at capacity. -/
def stateC9w : Cache Nat :=
  { entries := [("a", ⟨1, 10⟩), ("b", ⟨2, 5⟩)]
    ttl := 100
    maxSize := 2
    metrics := { Hits := 0, Misses := 0, Evictions := 0, TotalReads := 0, TotalSize := 2 } }

/-- Witness for `C9_overwrite_at_capacity_evicts`: overwriting `"a"` in
`stateC9w` (at capacity, nothing expired) increments `Evictions`. -/
theorem C9_overwrite_at_capacity_evicts_witness :
    (stateC9w.Set "a" 7 0).metrics.Evictions = stateC9w.metrics.Evictions + 1 :=
  (C9_overwrite_at_capacity_evicts stateC9w "a" 7 0 (by decide) (by decide)
    (by decide) (by decide)).1

end Secrets
